import Mathlib

/-!
Verification of the GitHub Open Graph thumbnail fetcher (`main.py`).

The Python functions are shallowly embedded as executable Lean definitions.
Strings are handled through their underlying `List Char`; the network, the
download directory and the random jitter are passed in explicitly: an HTTP
interaction is a list of `HttpResponse` values (one per outbound GET, in
order), the download directory is a list of (filename, bytes) pairs, and
`random.uniform(0, 0.35)` values are a list of rationals.
-/

namespace GhOg

abbrev Chars := List Char

/-- Python substring containment `sub in s`, on character lists. -/
def containsSub (sub : Chars) : Chars → Bool
  | [] => sub.isEmpty
  | c :: rest => sub.isPrefixOf (c :: rest) || containsSub sub rest

/-- Python `str.split(sep)` for a one-character separator `sep`. -/
def splitOnChar (sep : Char) : Chars → List Chars
  | [] => [[]]
  | c :: rest =>
    if c = sep then [] :: splitOnChar sep rest
    else
      match splitOnChar sep rest with
      | [] => [[c]]
      | x :: xs => (c :: x) :: xs

/-- main.py lines 25-26: prepend `https://` when the URL carries no scheme. -/
def normScheme (url : Chars) : Chars :=
  if "http://".data.isPrefixOf url || "https://".data.isPrefixOf url then url
  else "https://".data ++ url

/-- The part of the URL after its `http://` / `https://` scheme marker. -/
def afterScheme (u : Chars) : Chars :=
  if "https://".data.isPrefixOf u then u.drop 8
  else if "http://".data.isPrefixOf u then u.drop 7
  else u

/-- `urlparse(u).netloc`: the authority, up to the first `/`, `?` or `#`. -/
def netlocOf (u : Chars) : Chars :=
  (afterScheme u).takeWhile (fun c => !(c = '/' || c = '?' || c = '#'))

/-- The raw path: after the netloc, up to the first `?` or `#`. -/
def rawPathOf (u : Chars) : Chars :=
  ((afterScheme u).drop (netlocOf u).length).takeWhile (fun c => !(c = '?' || c = '#'))

/-- `urlparse` separates `;params` from the last path segment
(CPython `urllib.parse._splitparams`); this returns the path without them. -/
def splitParamsL (p : Chars) : Chars :=
  if p.any (fun c => c = ';') then
    if p.any (fun c => c = '/') then
      let segs := splitOnChar '/' p
      let lastSeg := segs.getLastD []
      if lastSeg.any (fun c => c = ';') then
        List.intercalate ['/'] (segs.dropLast ++ [(splitOnChar ';' lastSeg).headD []])
      else p
    else (splitOnChar ';' p).headD []
  else p

/-- `urlparse(u).path` of the (scheme-normalized) URL. -/
def pathOf (u : Chars) : Chars := splitParamsL (rawPathOf u)

/-- main.py line 30: the non-empty `/`-separated path segments. -/
def segsOf (u : Chars) : List Chars :=
  (splitOnChar '/' (pathOf u)).filter (fun p => !p.isEmpty)

/-- main.py line 34: `re.sub(r"\.git$", "", s, flags=re.I)`.  Python's `$`
also matches just before a final newline, hence the second case. -/
def stripGitL (cs : Chars) : Chars :=
  let r := cs.reverse
  if (r.take 4).map Char.toLower = ['t', 'i', 'g', '.'] then (r.drop 4).reverse
  else if (r.take 5).map Char.toLower = ['\n', 't', 'i', 'g', '.'] then
    ('\n' :: r.drop 5).reverse
  else cs

/-- The only failure kind of `parse_owner_repo` (a `ValueError` in the
source; the spec calls it `InvalidInput`). -/
inductive ParseError where
  | invalidInput (msg : String)
deriving DecidableEq

/-- main.py `parse_owner_repo` (lines 24-35). -/
def parse_owner_repo (repo_url : String) : Except ParseError (String × String) :=
  if containsSub "github.com".data (netlocOf (normScheme repo_url.data)) then
    match segsOf (normScheme repo_url.data) with
    | owner :: second :: _ => .ok (String.mk owner, String.mk (stripGitL second))
    | _ => .error (.invalidInput "Could not parse owner/repo from URL.")
  else .error (.invalidInput "URL must be a GitHub repository URL.")

/-! ## The fetcher: cache, glob matching, extension choice, retry loop -/

/-- One chunk of a streamed response body, as produced by `iter_content`:
either bytes, or an exception raised while streaming. -/
inductive Chunk where
  | bytes (bs : List Nat)
  | err
deriving DecidableEq

/-- One HTTP response delivered to a `SESSION.get` call. -/
structure HttpResponse where
  status : Nat
  contentType : Option String
  chunks : List Chunk
deriving DecidableEq

/-- Failure kinds of `download_with_retry`: the spec's `RateLimited`
(`RuntimeError`, lines 117-120), `DownloadFailed` as `httpStatus` for
`raise_for_status` (line 99), `streamError` for an exception while writing
the streamed body (lines 111-114), `networkError` for a failed GET. -/
inductive DlError where
  | rateLimited (msg : String)
  | httpStatus (code : Nat)
  | streamError
  | networkError
deriving DecidableEq

/-- The download directory: filenames with their byte contents. -/
abbrev Files := List (String × List Nat)

/-- Characters kept by the sanitizer on line 109 (`[a-zA-Z0-9_.-]`). -/
def isSafeChar (c : Char) : Bool :=
  ('a' ≤ c && c ≤ 'z') || ('A' ≤ c && c ≤ 'Z') || ('0' ≤ c && c ≤ '9') ||
    c = '_' || c = '.' || c = '-'

def sanitizeL (cs : Chars) : Chars := cs.map (fun c => if isSafeChar c then c else '_')

/-- main.py line 109: `re.sub(r"[^a-zA-Z0-9_.-]", "_", s)`. -/
def sanitize (s : String) : String := String.mk (sanitizeL s.data)

/-- Scan a glob character class up to its closing `]`; returns the class
characters and the number of pattern characters consumed. -/
def findClose : Chars → Option (Chars × Nat)
  | [] => none
  | c :: rest =>
    if c = ']' then some ([], 1)
    else (findClose rest).map (fun p => (c :: p.1, p.2 + 1))

/-- A `]` directly after the opening `[` (or after `!`) is a literal member. -/
def parseClassAux (ps : Chars) : Option (Chars × Nat) :=
  match ps with
  | [] => none
  | c :: rest =>
    if c = ']' then (findClose rest).map (fun p => (']' :: p.1, p.2 + 1))
    else findClose ps

/-- Parse a glob `[...]` class body: negation flag, members, chars consumed. -/
def parseClass (ps : Chars) : Option (Bool × Chars × Nat) :=
  match ps with
  | [] => none
  | c :: rest =>
    if c = '!' then (parseClassAux rest).map (fun p => (true, p.1, p.2 + 1))
    else (parseClassAux ps).map (fun p => (false, p.1, p.2))

/-- Membership in a glob character class, with `a-z` ranges. -/
def classMatches : Chars → Char → Bool
  | a :: '-' :: b :: rest, c => (a ≤ c && c ≤ b) || classMatches rest c
  | a :: rest, c => (a = c) || classMatches rest c
  | [], _ => false

/-- `fnmatch`-style glob matching on one path component, as used by
`pathlib.Path.glob` for the cache lookup pattern on line 74. -/
def globMatch : Chars → Chars → Bool
  | [], s => s.isEmpty
  | p :: ps, s =>
    if p = '*' then
      globMatch ps s || (match s with | [] => false | _ :: s2 => globMatch (p :: ps) s2)
    else if p = '[' then
      match parseClass ps with
      | none =>
        match s with
        | [] => false
        | c :: s2 => (p = c) && globMatch ps s2
      | some (neg, cls, k) =>
        match s with
        | [] => false
        | c :: s2 => (classMatches cls c != neg) && globMatch (ps.drop k) s2
    else if p = '?' then
      match s with | [] => false | _ :: s2 => globMatch ps s2
    else
      match s with
      | [] => false
      | c :: s2 => (p = c) && globMatch ps s2
  termination_by p s => (p.length, s.length)
  decreasing_by
    all_goals simp_wf
    · exact Prod.Lex.left _ _ (by simp)
    · exact Prod.Lex.right _ (by omega)
    · exact Prod.Lex.left _ _ (by simp)
    · exact Prod.Lex.left _ _ (by simp [Nat.lt_succ_of_le, List.length_drop])
    · exact Prod.Lex.left _ _ (by simp)
    · exact Prod.Lex.left _ _ (by simp)

/-- The glob pattern of main.py line 74: `f"{owner}-{repo}-opengraph.*"`. -/
def cachePattern (owner repo : String) : String :=
  owner ++ "-" ++ repo ++ "-opengraph.*"

/-- main.py `find_cached` (lines 73-77): first file in the download
directory whose name matches the identity's glob pattern. -/
def find_cached (files : Files) (owner repo : String) : Option String :=
  (files.find? (fun f => globMatch (cachePattern owner repo).data f.1.data)).map Prod.fst

/-- Python's `mimetypes.guess_extension`, restricted to image content
types (it returns `None` on everything else that can occur here;
`image/x-icon` is unknown to Python's registry). -/
def mimeExtTable : List (String × String) :=
  [("image/avif", ".avif"), ("image/bmp", ".bmp"), ("image/gif", ".gif"),
   ("image/jpeg", ".jpg"), ("image/png", ".png"), ("image/svg+xml", ".svg"),
   ("image/tiff", ".tiff"), ("image/webp", ".webp")]

def guess_extension (t : String) : Option String :=
  (mimeExtTable.find? (fun e => e.1 = t)).map Prod.snd

/-- main.py line 102: `(headers.get("Content-Type") or "").lower().split(";")[0]`. -/
def ctypeOf (contentType : Option String) : String :=
  String.mk ((splitOnChar ';' ((contentType.getD "").data.map Char.toLower)).headD [])

def imageExts : List String := [".png", ".jpg", ".jpeg", ".webp", ".gif"]

def endsWithL (suf s : Chars) : Bool := suf.reverse.isPrefixOf s.reverse

/-- main.py line 106: `url.lower().endswith((".png", ".jpg", ".jpeg", ".webp", ".gif"))`
(apply to the lowered URL). -/
def knownImageSuffix (u : Chars) : Bool := imageExts.any (fun e => endsWithL e.data u)

/-- The final path component, as `pathlib` sees it. -/
def lastNameOf (u : Chars) : Chars :=
  ((splitOnChar '/' u).filter (fun p => !p.isEmpty)).getLastD []

/-- `pathlib.Path(u).suffix`: `name[i:]` for `i = name.rfind('.')` when
`0 < i < len(name) - 1`, else empty (no dot, leading dot, trailing dot). -/
def path_suffix (u : Chars) : Chars :=
  if ((lastNameOf u).reverse.takeWhile (fun c => c ≠ '.')).length = (lastNameOf u).length then []
  else if ((lastNameOf u).reverse.takeWhile (fun c => c ≠ '.')).length = 0 then []
  else if ((lastNameOf u).reverse.takeWhile (fun c => c ≠ '.')).length + 1 = (lastNameOf u).length then []
  else '.' :: ((lastNameOf u).reverse.takeWhile (fun c => c ≠ '.')).reverse

/-- main.py lines 101-107: the chosen file extension. -/
def chooseExt (contentType : Option String) (url : String) : String :=
  let ctype := ctypeOf contentType
  let guess := if ctype ≠ "" then guess_extension ctype else none
  match guess with
  | some e => e
  | none =>
    if knownImageSuffix (url.data.map Char.toLower) then String.mk (path_suffix url.data)
    else ".jpg"

/-- Streaming the body to an open file (lines 111-114): returns the bytes
on disk when the iterator stops, and whether it completed without raising. -/
def writeChunks : List Chunk → List Nat × Bool
  | [] => ([], true)
  | Chunk.err :: _ => ([], false)
  | Chunk.bytes bs :: rest =>
    let r := writeChunks rest
    (bs ++ r.1, r.2)

def chunkOk : Chunk → Bool
  | Chunk.bytes _ => true
  | Chunk.err => false

def allGood (cs : List Chunk) : Bool := cs.all chunkOk

/-- The full body bytes of a chunk list. -/
def chunksBytes : List Chunk → List Nat
  | [] => []
  | Chunk.bytes bs :: rest => bs ++ chunksBytes rest
  | Chunk.err :: rest => chunksBytes rest

/-- `open(out_path, "wb")` then write: creates or truncates the file. -/
def writeFile (files : Files) (name : String) (content : List Nat) : Files :=
  if files.any (fun f => f.1 = name) then
    files.map (fun f => if f.1 = name then (name, content) else f)
  else files ++ [(name, content)]

/-- The message of the `RuntimeError` on main.py lines 117-120. -/
def rateLimitedMsg : String :=
  "GitHub rate-limited the image CDN (429). Try again shortly, or use 'Open image URL' and save it directly in your browser."

/-- The outcome of one `download_with_retry` run: the returned path or
error, the download directory afterwards, how many GETs were issued, and
the `time.sleep` durations in order. -/
structure FetchResult where
  result : Except DlError String
  files : Files
  requests : Nat
  sleeps : List ℚ

/-- The `for attempt in range(1, max_retries + 1)` loop of
`download_with_retry` (main.py lines 92-120), with `n` attempts left,
consuming one `HttpResponse` per GET and one jitter value per 429. -/
def downloadLoop (url owner repo : String) (files : Files) :
    List HttpResponse → List ℚ → ℚ → Nat → FetchResult
  | _, _, _, 0 =>
    { result := .error (.rateLimited rateLimitedMsg), files := files,
      requests := 0, sleeps := [] }
  | [], _, _, _ + 1 =>
    { result := .error .networkError, files := files, requests := 0, sleeps := [] }
  | r :: rs, js, backoff, n + 1 =>
    if r.status = 429 then
      let inner := downloadLoop url owner repo files rs js.tail (backoff * 2) n
      { result := inner.result, files := inner.files, requests := inner.requests + 1,
        sleeps := (backoff + js.headD 0) :: inner.sleeps }
    else if 400 ≤ r.status ∧ r.status < 600 then
      { result := .error (.httpStatus r.status), files := files, requests := 1, sleeps := [] }
    else
      let ext := chooseExt r.contentType url
      let name := sanitize (owner ++ "-" ++ repo ++ "-opengraph" ++ ext)
      let w := writeChunks r.chunks
      if w.2 then
        { result := .ok name, files := writeFile files name w.1, requests := 1, sleeps := [] }
      else
        { result := .error .streamError, files := writeFile files name w.1,
          requests := 1, sleeps := [] }

/-- main.py `download_with_retry` (lines 79-120); `max_retries` defaults
to 5 in the source.  The initial backoff is 1.0 (line 92). -/
def download_with_retry (url owner repo : String) (files : Files)
    (responses : List HttpResponse) (jitters : List ℚ) (max_retries : Nat) : FetchResult :=
  match find_cached files owner repo with
  | some p => { result := .ok p, files := files, requests := 0, sleeps := [] }
  | none => downloadLoop url owner repo files responses jitters 1 max_retries

/-! ## Basic string/list lemmas -/

theorem data_append (s t : String) : (s ++ t).data = s.data ++ t.data := rfl

theorem mk_data (s : String) : String.mk s.data = s := rfl

theorem isPrefixOf_self_append (l r : Chars) : l.isPrefixOf (l ++ r) = true := by
  induction l with
  | nil => simp [List.isPrefixOf]
  | cons a as ih => simp [List.isPrefixOf, ih]

theorem isPrefixOf_head_ne {a b : Char} (h : a ≠ b) (as bs : Chars) :
    (a :: as).isPrefixOf (b :: bs) = false := by
  simp [List.isPrefixOf, h]

theorem isEmpty_false {l : Chars} (h : l ≠ []) : l.isEmpty = false := by
  cases l with
  | nil => exact absurd rfl h
  | cons a as => rfl

theorem takeWhile_append_stop (p : Char → Bool) {a : Chars} {c : Char} (b : Chars)
    (ha : ∀ x ∈ a, p x = true) (hc : p c = false) : (a ++ c :: b).takeWhile p = a := by
  induction a with
  | nil => simp [List.takeWhile, hc]
  | cons x xs ih =>
    have hx : p x = true := ha x (by simp)
    simp only [List.cons_append, List.takeWhile, hx, List.append_eq]
    rw [ih (fun y hy => ha y (by simp [hy]))]

theorem takeWhile_all (p : Char → Bool) {l : Chars} (h : ∀ x ∈ l, p x = true) :
    l.takeWhile p = l := by
  induction l with
  | nil => rfl
  | cons x xs ih =>
    simp only [List.takeWhile, h x (by simp)]
    rw [ih (fun y hy => h y (by simp [hy]))]

theorem splitOnChar_no_sep {sep : Char} {a : Chars} (h : ∀ x ∈ a, x ≠ sep) :
    splitOnChar sep a = [a] := by
  induction a with
  | nil => rfl
  | cons x xs ih =>
    have hx : x ≠ sep := h x (by simp)
    simp only [splitOnChar, if_neg hx]
    rw [ih (fun y hy => h y (by simp [hy]))]

theorem splitOnChar_append_sep {sep : Char} {a : Chars} (b : Chars)
    (h : ∀ x ∈ a, x ≠ sep) :
    splitOnChar sep (a ++ sep :: b) = a :: splitOnChar sep b := by
  induction a with
  | nil => simp [splitOnChar]
  | cons x xs ih =>
    have hx : x ≠ sep := h x (by simp)
    simp only [List.cons_append, splitOnChar, if_neg hx, List.append_eq]
    rw [ih (fun y hy => h y (by simp [hy]))]

/-! ## The canonical GitHub URL shapes -/

theorem afterScheme_https (r : Chars) : afterScheme ("https://".data ++ r) = r := by
  have h : List.drop 8 ("https://".data ++ r) = r := List.drop_left' rfl
  simp [afterScheme, isPrefixOf_self_append, h]

theorem normScheme_keep_https (r : Chars) :
    normScheme ("https://".data ++ r) = "https://".data ++ r := by
  simp [normScheme, isPrefixOf_self_append]

theorem no_scheme_head_g (x : Chars) :
    normScheme ('g' :: x) = "https://".data ++ 'g' :: x := by
  have h1 : "http://".data.isPrefixOf ('g' :: x) = false :=
    isPrefixOf_head_ne (by decide) "ttp://".data x
  have h2 : "https://".data.isPrefixOf ('g' :: x) = false :=
    isPrefixOf_head_ne (by decide) "ttps://".data x
  simp [normScheme, h1, h2]

theorem normScheme_github (r : Chars) :
    normScheme ("github.com/".data ++ r) = "https://".data ++ ("github.com/".data ++ r) := by
  have h : "github.com/".data ++ r = 'g' :: ("ithub.com/".data ++ r) := rfl
  rw [h]
  exact no_scheme_head_g _

theorem githubSlash (r : Chars) :
    "github.com/".data ++ r = "github.com".data ++ '/' :: r := by
  rw [show ("github.com/".data : Chars) = "github.com".data ++ ['/'] from rfl,
    List.append_assoc]
  rfl

theorem netlocOf_hostPath (t : Chars) :
    netlocOf ("https://".data ++ ("github.com".data ++ '/' :: t)) = "github.com".data := by
  simp only [netlocOf]
  rw [afterScheme_https]
  exact takeWhile_append_stop _ _ (by decide) (by decide)

theorem rawPathOf_hostPath (t : Chars) (ht : ∀ c ∈ t, c ≠ '?' ∧ c ≠ '#') :
    rawPathOf ("https://".data ++ ("github.com".data ++ '/' :: t)) = '/' :: t := by
  unfold rawPathOf
  rw [netlocOf_hostPath, afterScheme_https, List.drop_left]
  refine takeWhile_all _ (fun x hx => ?_)
  rcases List.mem_cons.mp hx with rfl | hmem
  · decide
  · simp [(ht x hmem).1, (ht x hmem).2]

theorem splitParamsL_no_semi {l : Chars} (h : ∀ c ∈ l, c ≠ ';') : splitParamsL l = l := by
  have h1 : l.any (fun c => decide (c = ';')) = false := by
    rw [List.any_eq_false]
    intro x hx
    simp [h x hx]
  simp [splitParamsL, h1]

theorem segsOf_hostPath (t : Chars) (ht : ∀ c ∈ t, c ≠ '?' ∧ c ≠ '#' ∧ c ≠ ';') :
    segsOf ("https://".data ++ ("github.com".data ++ '/' :: t)) =
      (splitOnChar '/' t).filter (fun p => !p.isEmpty) := by
  simp only [segsOf, pathOf]
  rw [rawPathOf_hostPath t (fun c hc => ⟨(ht c hc).1, (ht c hc).2.1⟩)]
  rw [splitParamsL_no_semi (l := '/' :: t) ?hsemi]
  case hsemi =>
    intro c hc
    rcases List.mem_cons.mp hc with rfl | hmem
    · decide
    · exact (ht c hmem).2.2
  simp [splitOnChar]

theorem git_variant_chars {g : Chars} (hg : g.map Char.toLower = ['.', 'g', 'i', 't']) :
    ∀ c ∈ g, c ≠ '/' ∧ c ≠ '?' ∧ c ≠ '#' ∧ c ≠ ';' := by
  intro c hc
  have hm : c.toLower ∈ ['.', 'g', 'i', 't'] := hg ▸ List.mem_map_of_mem Char.toLower hc
  refine ⟨?_, ?_, ?_, ?_⟩ <;> rintro rfl <;> revert hm <;> decide

theorem stripGitL_append_git {x g : Chars} (hg : g.map Char.toLower = ['.', 'g', 'i', 't']) :
    stripGitL (x ++ g) = x := by
  have hlen : g.length = 4 := by
    have := congrArg List.length hg
    simpa using this
  have h4 : g.reverse.length = 4 := by simp [hlen]
  have hrev : (x ++ g).reverse = g.reverse ++ x.reverse := List.reverse_append x g
  have htk : (g.reverse ++ x.reverse).take 4 = g.reverse := List.take_left' h4
  have hdp : (g.reverse ++ x.reverse).drop 4 = x.reverse := List.drop_left' h4
  have hmap : g.reverse.map Char.toLower = ['t', 'i', 'g', '.'] := by
    rw [List.map_reverse, hg]
    decide
  simp [stripGitL, hrev, htk, hdp, hmap]

/-! ## Claims C4, C5, C10: parse_identity -/

/-- Claim C4 (counterexample): the host `evilgithub.com` is not
`github.com`, yet `parse_owner_repo` accepts the URL, because the source
only checks that the netloc contains `"github.com"` as a substring. -/
theorem c4_counterexample :
    parse_owner_repo "https://evilgithub.com/a/b" = .ok ("a", "b") := by rfl

/-- Claim C4 (amended): `parse_owner_repo` fails — always with
`InvalidInput` — if and only if the netloc of the scheme-normalized URL
does not contain `"github.com"` as a substring, or the path has fewer than
two non-empty segments.  (The claim's "host is not github.com" is wrong:
hosts such as `evilgithub.com` are accepted.) -/
theorem c4_amended (url : String) :
    (∃ m, parse_owner_repo url = .error (.invalidInput m)) ↔
      (containsSub "github.com".data (netlocOf (normScheme url.data)) = false ∨
        (segsOf (normScheme url.data)).length < 2) := by
  unfold parse_owner_repo
  cases hc : containsSub "github.com".data (netlocOf (normScheme url.data))
  · simp [hc]
  · rcases hseg : segsOf (normScheme url.data) with _ | ⟨a, _ | ⟨b, rest⟩⟩ <;>
      simp [hc, hseg]

/-- Claim C5: for every valid `https://github.com/{owner}/{repo}` input —
scheme optionally omitted (https assumed), optional trailing `.git` on the
repo segment in any letter case — `parse_owner_repo` returns `(owner, repo)`
with the `.git` suffix stripped and letter case otherwise preserved. -/
theorem c5_parse_valid (scheme owner repo g : String)
    (hs : scheme = "" ∨ scheme = "https://")
    (ho : owner.data ≠ [])
    (hoc : ∀ c ∈ owner.data, c ≠ '/' ∧ c ≠ '?' ∧ c ≠ '#' ∧ c ≠ ';')
    (hr : repo.data ≠ [])
    (hrc : ∀ c ∈ repo.data, c ≠ '/' ∧ c ≠ '?' ∧ c ≠ '#' ∧ c ≠ ';')
    (hg : g = "" ∨ g.data.map Char.toLower = ['.', 'g', 'i', 't'])
    (hnorm : stripGitL repo.data = repo.data) :
    parse_owner_repo (scheme ++ "github.com/" ++ owner ++ "/" ++ repo ++ g) = .ok (owner, repo) := by
  have hgc : ∀ c ∈ g.data, c ≠ '/' ∧ c ≠ '?' ∧ c ≠ '#' ∧ c ≠ ';' := by
    rcases hg with rfl | hvar
    · intro c hc
      simp at hc
    · exact git_variant_chars hvar
  set t : Chars := owner.data ++ '/' :: (repo.data ++ g.data) with htdef
  have ht : ∀ c ∈ t, c ≠ '?' ∧ c ≠ '#' ∧ c ≠ ';' := by
    intro c hcm
    rcases List.mem_append.mp hcm with h1 | h2
    · exact ⟨(hoc c h1).2.1, (hoc c h1).2.2.1, (hoc c h1).2.2.2⟩
    · rcases List.mem_cons.mp h2 with rfl | h3
      · decide
      · rcases List.mem_append.mp h3 with h4 | h5
        · exact ⟨(hrc c h4).2.1, (hrc c h4).2.2.1, (hrc c h4).2.2.2⟩
        · exact ⟨(hgc c h5).2.1, (hgc c h5).2.2.1, (hgc c h5).2.2.2⟩
  have hdata : (scheme ++ "github.com/" ++ owner ++ "/" ++ repo ++ g).data =
      scheme.data ++ ("github.com/".data ++ t) := by
    simp [data_append, htdef, List.append_assoc]
  have hnormed : normScheme (scheme ++ "github.com/" ++ owner ++ "/" ++ repo ++ g).data =
      "https://".data ++ ("github.com".data ++ '/' :: t) := by
    rw [hdata]
    rcases hs with rfl | rfl
    · show normScheme ([] ++ ("github.com/".data ++ t)) = _
      rw [List.nil_append, normScheme_github, githubSlash]
    · show normScheme ("https://".data ++ ("github.com/".data ++ t)) = _
      rw [normScheme_keep_https, githubSlash]
  unfold parse_owner_repo
  rw [hnormed, netlocOf_hostPath, segsOf_hostPath t ht]
  rw [show containsSub "github.com".data "github.com".data = true from by decide, if_pos rfl]
  rw [htdef, splitOnChar_append_sep _ (fun c hc => (hoc c hc).1),
    splitOnChar_no_sep (fun c hc => by
      rcases List.mem_append.mp hc with h4 | h5
      · exact (hrc c h4).1
      · exact (hgc c h5).1)]
  have hre : repo.data ++ g.data ≠ [] := by
    intro habs
    exact hr (List.append_eq_nil.mp habs).1
  simp only [List.filter, isEmpty_false ho, isEmpty_false hre, List.isEmpty_nil, Bool.not_true,
    Bool.not_false]
  show Except.ok (String.mk owner.data, String.mk (stripGitL (repo.data ++ g.data))) = _
  rcases hg with rfl | hvar
  · rw [show ("".data : Chars) = [] from rfl, List.append_nil, hnorm]
  · rw [stripGitL_append_git hvar]

/-- Claim C10: for every URL on the expected host whose path has more than
two non-empty segments, `parse_owner_repo` succeeds and returns the first
two segments, silently ignoring the rest. -/
theorem c10_extra_segments (owner repo rest : String)
    (ho : owner.data ≠ [])
    (hoc : ∀ c ∈ owner.data, c ≠ '/' ∧ c ≠ '?' ∧ c ≠ '#' ∧ c ≠ ';')
    (hr : repo.data ≠ [])
    (hrc : ∀ c ∈ repo.data, c ≠ '/' ∧ c ≠ '?' ∧ c ≠ '#' ∧ c ≠ ';')
    (hrest : ∀ c ∈ rest.data, c ≠ '?' ∧ c ≠ '#' ∧ c ≠ ';')
    (hnorm : stripGitL repo.data = repo.data) :
    parse_owner_repo ("https://github.com/" ++ owner ++ "/" ++ repo ++ "/" ++ rest) =
      .ok (owner, repo) := by
  set t : Chars := owner.data ++ '/' :: (repo.data ++ '/' :: rest.data) with htdef
  have ht : ∀ c ∈ t, c ≠ '?' ∧ c ≠ '#' ∧ c ≠ ';' := by
    intro c hcm
    rcases List.mem_append.mp hcm with h1 | h2
    · exact ⟨(hoc c h1).2.1, (hoc c h1).2.2.1, (hoc c h1).2.2.2⟩
    · rcases List.mem_cons.mp h2 with rfl | h3
      · decide
      · rcases List.mem_append.mp h3 with h4 | h5
        · exact ⟨(hrc c h4).2.1, (hrc c h4).2.2.1, (hrc c h4).2.2.2⟩
        · rcases List.mem_cons.mp h5 with rfl | h6
          · decide
          · exact hrest c h6
  have hdata : ("https://github.com/" ++ owner ++ "/" ++ repo ++ "/" ++ rest).data =
      "https://".data ++ ("github.com".data ++ '/' :: t) := by
    rw [show ("https://github.com/" : String) = "https://" ++ "github.com/" from rfl]
    simp [data_append, htdef, List.append_assoc, githubSlash]
  unfold parse_owner_repo
  rw [hdata, normScheme_keep_https, netlocOf_hostPath, segsOf_hostPath t ht]
  rw [show containsSub "github.com".data "github.com".data = true from by decide, if_pos rfl]
  rw [htdef, splitOnChar_append_sep _ (fun c hc => (hoc c hc).1),
    splitOnChar_append_sep _ (fun c hc => (hrc c hc).1)]
  simp only [List.filter, isEmpty_false ho, isEmpty_false hr, Bool.not_true, Bool.not_false]
  show Except.ok (String.mk owner.data, String.mk (stripGitL repo.data)) = _
  rw [hnorm]

/-- Witness for C5: the end-to-end example of the spec, with a mixed-case
`.GiT` suffix and the scheme omitted. -/
theorem c5_parse_valid_witness :
    parse_owner_repo ("" ++ "github.com/" ++ "octocat" ++ "/" ++ "Hello-World" ++ ".GiT") =
      .ok ("octocat", "Hello-World") :=
  c5_parse_valid "" "octocat" "Hello-World" ".GiT" (Or.inl rfl) (by decide) (by decide)
    (by decide) (by decide) (Or.inr (by decide)) (by decide)

/-- Witness for C10: a `/tree/main` tail is ignored. -/
theorem c10_extra_segments_witness :
    parse_owner_repo ("https://github.com/" ++ "octocat" ++ "/" ++ "Hello-World" ++ "/" ++ "tree/main") =
      .ok ("octocat", "Hello-World") :=
  c10_extra_segments "octocat" "Hello-World" "tree/main" (by decide) (by decide)
    (by decide) (by decide) (by decide) (by decide)

/-! ## The resolver -/

/-- Outcome of the authenticated GraphQL query `get_og_via_graphql`
(main.py lines 37-50), abstracted as an oracle: the call can raise (any
network or HTTP error, including `raise_for_status`), or return the
`openGraphImageUrl` field (absent fields give `fieldMissing`). -/
inductive GqlOutcome where
  | raises
  | fieldMissing
  | found (u : String)
deriving DecidableEq

/-- Outcome of `get_og_from_html` (main.py lines 52-56), abstracted as an
oracle: `.error` when the page GET raises, `.ok none` when no
`og:image` meta tag matches, `.ok (some u)` for a match `u`. -/
abbrev HtmlOutcome := Except Unit (Option String)

/-- Failure kinds of `resolve_og`: `InvalidInput` propagated from parsing,
`ResolutionFailed` (`RuntimeError`, line 70), and an HTTP/network error
propagated from the HTML fetch. -/
inductive ResolveError where
  | invalidInput (msg : String)
  | resolutionFailed (msg : String)
  | httpError
deriving DecidableEq

/-- The HTML-scrape tail of `resolve_og` (main.py lines 68-71): fetch the
page, fail with `ResolutionFailed` when no URL is found. -/
def htmlResolve (owner repo : String) (html : HtmlOutcome) :
    Except ResolveError (String × String × String) :=
  match html with
  | .error _ => .error .httpError
  | .ok none => .error (.resolutionFailed "Could not find Open Graph image for this repository.")
  | .ok (some u) =>
    if u = "" then .error (.resolutionFailed "Could not find Open Graph image for this repository.")
    else .ok (owner, repo, u)

/-- Python `str.strip()` whitespace (as relevant to ASCII tokens). -/
def isPyWhitespace (c : Char) : Bool :=
  c = ' ' || c = '\t' || c = '\n' || c = '\r' || c = '\x0b' || c = '\x0c'

/-- Python `s.strip()` on line 60. -/
def pyStrip (s : String) : String :=
  String.mk (((s.data.dropWhile isPyWhitespace).reverse.dropWhile isPyWhitespace).reverse)

/-- main.py `resolve_og` (lines 58-71).  `env_token` is the raw value of
the `GITHUB_TOKEN` environment variable (`""` when unset); `gql` and
`html` are the outcomes the network would produce for the two requests. -/
def resolve_og (repo_url : String) (env_token : String) (gql : GqlOutcome)
    (html : HtmlOutcome) : Except ResolveError (String × String × String) :=
  match parse_owner_repo repo_url with
  | .error (.invalidInput m) => .error (.invalidInput m)
  | .ok (owner, repo) =>
    let token : Option String := if pyStrip env_token = "" then none else some (pyStrip env_token)
    let viaGql : Option String :=
      match token with
      | none => none
      | some _ =>
        match gql with
        | .raises => none
        | .fieldMissing => none
        | .found u => if u = "" then none else some u
    match viaGql with
    | some u => .ok (owner, repo, u)
    | none => htmlResolve owner repo html

/-- Claim C6: when a token is configured and the URL parses, any failure of
the authenticated GraphQL path (an exception, or a missing field) is
suppressed: the result is exactly that of the public HTML scrape, and when
the scrape yields a URL, `resolve_og` succeeds with it. -/
theorem c6_gql_best_effort (repo_url env_token : String) (gql : GqlOutcome)
    (html : HtmlOutcome) (owner repo : String)
    (hparse : parse_owner_repo repo_url = .ok (owner, repo))
    (htok : pyStrip env_token ≠ "")
    (hfail : gql = .raises ∨ gql = .fieldMissing) :
    resolve_og repo_url env_token gql html = htmlResolve owner repo html ∧
      (∀ u, html = .ok (some u) → u ≠ "" →
        resolve_og repo_url env_token gql html = .ok (owner, repo, u)) := by
  have hres : resolve_og repo_url env_token gql html = htmlResolve owner repo html := by
    unfold resolve_og
    rw [hparse]
    simp only [if_neg htok]
    rcases hfail with rfl | rfl <;> rfl
  refine ⟨hres, fun u hu hne => ?_⟩
  rw [hres, hu]
  simp [htmlResolve, hne]

/-- Witness for C6: a raising GraphQL query is suppressed and the scrape's
URL is returned. -/
theorem c6_gql_best_effort_witness :
    resolve_og "https://github.com/octocat/Hello-World" "tok" .raises
        (.ok (some "https://opengraph.githubassets.com/1/octocat/Hello-World")) =
      .ok ("octocat", "Hello-World", "https://opengraph.githubassets.com/1/octocat/Hello-World") :=
  (c6_gql_best_effort "https://github.com/octocat/Hello-World" "tok" .raises
      (.ok (some "https://opengraph.githubassets.com/1/octocat/Hello-World"))
      "octocat" "Hello-World" (by rfl) (by decide) (Or.inl rfl)).2
    "https://opengraph.githubassets.com/1/octocat/Hello-World" rfl (by decide)

/-! ## Glob, sanitizer and extension lemmas -/

theorem globMatch_star_any (s : Chars) : globMatch ['*'] s = true := by
  induction s with
  | nil => rw [globMatch.eq_def]; simp [globMatch.eq_def]
  | cons c s2 ih => rw [globMatch.eq_def]; simp [ih]

theorem globMatch_lit_cons {c : Char} (h1 : c ≠ '*') (h2 : c ≠ '[') (h3 : c ≠ '?')
    (ps s : Chars) : globMatch (c :: ps) (c :: s) = globMatch ps s := by
  rw [globMatch.eq_def]
  simp [h1, h2, h3]

theorem globMatch_lit_ne {c d : Char} (h1 : c ≠ '*') (h2 : c ≠ '[') (h3 : c ≠ '?')
    (h4 : c ≠ d) (ps s : Chars) : globMatch (c :: ps) (d :: s) = false := by
  rw [globMatch.eq_def]
  simp [h1, h2, h3, h4]

theorem globMatch_lit_front {L : Chars} (hL : ∀ c ∈ L, c ≠ '*' ∧ c ≠ '[' ∧ c ≠ '?')
    (ps s : Chars) : globMatch (L ++ ps) (L ++ s) = globMatch ps s := by
  induction L with
  | nil => rfl
  | cons c cs ih =>
    have h := hL c (by simp)
    simp only [List.cons_append]
    rw [globMatch_lit_cons h.1 h.2.1 h.2.2]
    exact ih (fun x hx => hL x (by simp [hx]))

theorem isSafeChar_not_meta {c : Char} (h : isSafeChar c = true) :
    c ≠ '*' ∧ c ≠ '[' ∧ c ≠ '?' := by
  refine ⟨?_, ?_, ?_⟩ <;> rintro rfl <;> revert h <;> decide

theorem sanitizeL_append (a b : Chars) : sanitizeL (a ++ b) = sanitizeL a ++ sanitizeL b :=
  List.map_append _ a b

theorem sanitizeL_safe {l : Chars} (h : ∀ c ∈ l, isSafeChar c = true) : sanitizeL l = l := by
  induction l with
  | nil => rfl
  | cons c cs ih =>
    simp only [sanitizeL, List.map_cons, if_pos (h c (by simp))]
    have := ih (fun x hx => h x (by simp [hx]))
    simp only [sanitizeL] at this
    rw [this]

theorem writeChunks_allGood {cs : List Chunk} (h : allGood cs = true) :
    writeChunks cs = (chunksBytes cs, true) := by
  induction cs with
  | nil => rfl
  | cons c rest ih =>
    cases c with
    | bytes bs =>
      have hr : allGood rest = true := by
        simpa [allGood, List.all_cons, chunkOk] using h
      simp [writeChunks, chunksBytes, ih hr]
    | err => simp [allGood, List.all_cons, chunkOk] at h

theorem mimeExtTable_facts :
    ∀ x ∈ mimeExtTable, x.2.data.headD ' ' = '.' ∧ x.2 ≠ "" := by decide

theorem guess_extension_dot {t e : String} (h : guess_extension t = some e) :
    e.data.headD ' ' = '.' ∧ e ≠ "" := by
  unfold guess_extension at h
  obtain ⟨a, hfind, hsnd⟩ := Option.map_eq_some'.mp h
  have := mimeExtTable_facts a (List.mem_of_find?_eq_some hfind)
  rw [hsnd] at this
  exact this

theorem path_suffix_shape (u : Chars) :
    path_suffix u = [] ∨ ∃ t, path_suffix u = '.' :: t := by
  unfold path_suffix
  split
  · exact Or.inl rfl
  · split
    · exact Or.inl rfl
    · split
      · exact Or.inl rfl
      · exact Or.inr ⟨_, rfl⟩

theorem data_eq_nil {s : String} (h : s.data = []) : s = "" := by
  cases s with
  | mk d =>
    simp only at h
    subst h
    rfl

/-- Every extension the source can choose is empty or starts with `.`. -/
theorem chooseExt_dot {co : Option String} {url : String} (h : chooseExt co url ≠ "") :
    ∃ t, (chooseExt co url).data = '.' :: t := by
  rcases hg : (if ctypeOf co ≠ "" then guess_extension (ctypeOf co) else none) with _ | e
  · by_cases hk : knownImageSuffix (url.data.map Char.toLower) = true
    · rcases path_suffix_shape url.data with hsh | ⟨t, hsh⟩
      · exfalso
        apply h
        simp [chooseExt, hg, hk, hsh]
      · refine ⟨t, ?_⟩
        simp [chooseExt, hg, hk, hsh]
    · refine ⟨"jpg".data, ?_⟩
      simp [chooseExt, hg, hk]
  · have hge : guess_extension (ctypeOf co) = some e := by
      by_cases hc : ctypeOf co ≠ ""
      · rwa [if_pos hc] at hg
      · rw [if_neg hc] at hg
        cases hg
    obtain ⟨hdot, hne⟩ := guess_extension_dot hge
    cases he : e.data with
    | nil => exact absurd (data_eq_nil he) hne
    | cons x xs =>
      rw [he] at hdot
      simp only [List.headD_cons] at hdot
      subst hdot
      refine ⟨xs, ?_⟩
      simp [chooseExt, hg, he]

/-! ## The retry loop under 429 responses -/

/-- A 429 (Too Many Requests) response. -/
def resp429 : HttpResponse := { status := 429, contentType := none, chunks := [] }

theorem getD_zero_headD (js : List ℚ) : js.getD 0 0 = js.headD 0 := by
  cases js <;> rfl

theorem getD_succ_tail (js : List ℚ) (i : Nat) : js.getD (i + 1) 0 = js.tail.getD i 0 := by
  cases js <;> rfl

theorem drop_succ_tail (js : List ℚ) (k : Nat) : js.drop (k + 1) = js.tail.drop k := by
  cases js <;> simp

/-- Running the loop against `k` leading 429 responses: each one consumes a
request and sleeps `backoff + jitter` with the backoff doubling, then the
loop continues on the remaining responses with `k` fewer attempts left. -/
theorem downloadLoop_429s (url owner repo : String) (files : Files) :
    ∀ (k n : Nat) (rs : List HttpResponse) (js : List ℚ) (b : ℚ),
    downloadLoop url owner repo files (List.replicate k resp429 ++ rs) js b (k + n) =
      { result := (downloadLoop url owner repo files rs (js.drop k) (b * 2 ^ k) n).result,
        files := (downloadLoop url owner repo files rs (js.drop k) (b * 2 ^ k) n).files,
        requests := (downloadLoop url owner repo files rs (js.drop k) (b * 2 ^ k) n).requests + k,
        sleeps := (List.range k).map (fun i => b * 2 ^ i + js.getD i 0) ++
          (downloadLoop url owner repo files rs (js.drop k) (b * 2 ^ k) n).sleeps } := by
  intro k
  induction k with
  | zero =>
    intro n rs js b
    simp
  | succ k ih =>
    intro n rs js b
    have hrepl : List.replicate (k + 1) resp429 ++ rs =
        resp429 :: (List.replicate k resp429 ++ rs) := by
      simp [List.replicate_succ]
    have hkn : k + 1 + n = (k + n) + 1 := by omega
    rw [hrepl, hkn, downloadLoop.eq_3, if_pos (show resp429.status = 429 from rfl),
      ih n rs js.tail (b * 2)]
    have hb : b * 2 * 2 ^ k = b * 2 ^ (k + 1) := by ring
    have hdrop : js.tail.drop k = js.drop (k + 1) := (drop_succ_tail js k).symm
    rw [hb, hdrop]
    simp only [FetchResult.mk.injEq]
    refine ⟨trivial, trivial, by omega, ?_⟩
    rw [List.range_succ_eq_map, List.map_cons, List.map_map, List.cons_append]
    simp only [pow_zero, mul_one, getD_zero_headD]
    refine congrArg₂ List.cons rfl (congrArg₂ List.append ?_ rfl)
    refine List.map_congr_left (fun i _ => ?_)
    simp only [Function.comp_apply, Nat.succ_eq_add_one, getD_succ_tail]
    ring_nf

theorem downloadLoop_zero (url owner repo : String) (files : Files) (rs : List HttpResponse)
    (js : List ℚ) (b : ℚ) :
    downloadLoop url owner repo files rs js b 0 =
      { result := .error (.rateLimited rateLimitedMsg), files := files,
        requests := 0, sleeps := [] } := by
  rw [downloadLoop.eq_1]

/-- A run whose every attempt is answered 429 fails `RateLimited` after
`max_retries` GETs, with the doubling backoff-plus-jitter sleeps. -/
theorem download_allRateLimited (url owner repo : String) (files : Files) (mr : Nat)
    (rest : List HttpResponse) (js : List ℚ) (hmiss : find_cached files owner repo = none) :
    download_with_retry url owner repo files (List.replicate mr resp429 ++ rest) js mr =
      { result := .error (.rateLimited rateLimitedMsg), files := files, requests := mr,
        sleeps := (List.range mr).map (fun i => (2 : ℚ) ^ i + js.getD i 0) } := by
  have h := downloadLoop_429s url owner repo files mr 0 rest js 1
  rw [Nat.add_zero] at h
  simp only [download_with_retry, hmiss]
  rw [h, downloadLoop_zero]
  simp [one_mul]

/-- A non-429, non-error response with a complete body: one GET, the body
is appended to the directory under the sanitized deterministic name. -/
theorem downloadLoop_success (url owner repo : String) (files : Files) (r : HttpResponse)
    (rest : List HttpResponse) (js : List ℚ) (b : ℚ) (n : Nat)
    (h429 : r.status ≠ 429) (hraise : ¬(400 ≤ r.status ∧ r.status < 600))
    (hok : allGood r.chunks = true)
    (hfresh : files.any
      (fun f => f.1 = sanitize (owner ++ "-" ++ repo ++ "-opengraph" ++ chooseExt r.contentType url)) = false) :
    downloadLoop url owner repo files (r :: rest) js b (n + 1) =
      { result := .ok (sanitize (owner ++ "-" ++ repo ++ "-opengraph" ++ chooseExt r.contentType url)),
        files := files ++
          [(sanitize (owner ++ "-" ++ repo ++ "-opengraph" ++ chooseExt r.contentType url),
            chunksBytes r.chunks)],
        requests := 1, sleeps := [] } := by
  rw [downloadLoop.eq_3, if_neg h429, if_neg hraise, writeChunks_allGood hok]
  simp [writeFile, hfresh]

/-- A 4xx/5xx response other than 429 raises immediately: one GET, no
retry, no file written. -/
theorem downloadLoop_httpError (url owner repo : String) (files : Files) (r : HttpResponse)
    (rest : List HttpResponse) (js : List ℚ) (b : ℚ) (n : Nat)
    (h429 : r.status ≠ 429) (h4 : 400 ≤ r.status) (h6 : r.status < 600) :
    downloadLoop url owner repo files (r :: rest) js b (n + 1) =
      { result := .error (.httpStatus r.status), files := files,
        requests := 1, sleeps := [] } := by
  rw [downloadLoop.eq_3, if_neg h429, if_pos ⟨h4, h6⟩]

theorem any_eq_false_of_all_ne {files : Files} {name : String}
    (h : files.all (fun f => f.1 ≠ name) = true) :
    files.any (fun f => f.1 = name) = false := by
  rw [List.any_eq_false]
  intro x hx
  have := List.all_eq_true.mp h x hx
  simpa using this

theorem getD_bounds {js : List ℚ} (hj : ∀ x ∈ js, 0 ≤ x ∧ x ≤ 7 / 20) (j : Nat) :
    0 ≤ js.getD j 0 ∧ js.getD j 0 ≤ 7 / 20 := by
  induction js generalizing j with
  | nil =>
    refine ⟨le_refl 0, by norm_num⟩
  | cons a l ih =>
    cases j with
    | zero => exact hj a (by simp)
    | succ m => exact ih (fun x hx => hj x (by simp [hx])) m

/-! ## Claims C2, C3, C8: retry behaviour -/

/-- A 200 response carrying a four-byte PNG body. -/
def respPng : HttpResponse :=
  { status := 200, contentType := some "image/png", chunks := [Chunk.bytes [137, 80, 78, 71]] }

set_option maxRecDepth 8192 in
/-- Claim C2 (counterexample): with the default budget `max_retries = 5`,
429 on the first five responses and a 200 available as the sixth, the call
does not succeed and writes no file: the loop exhausts its five attempts
and raises `RateLimited` without ever issuing a sixth GET. -/
theorem c2_counterexample :
    (download_with_retry "u" "o" "r" [] (List.replicate 5 resp429 ++ [respPng])
        [0, 0, 0, 0, 0] 5).result = .error (.rateLimited rateLimitedMsg) ∧
    (download_with_retry "u" "o" "r" [] (List.replicate 5 resp429 ++ [respPng])
        [0, 0, 0, 0, 0] 5).files = [] ∧
    (download_with_retry "u" "o" "r" [] (List.replicate 5 resp429 ++ [respPng])
        [0, 0, 0, 0, 0] 5).requests = 5 := by
  refine ⟨rfl, rfl, rfl⟩

/-- Claim C2 (amended): a fetch that receives 429 exactly `max_retries - 1`
times and then a 200 succeeds, issuing `max_retries` GETs and writing
exactly one file (the body under the sanitized deterministic name); one
that receives 429 on every attempt up to and including `max_retries` fails
with `RateLimited`.  (The loop issues at most `max_retries` GETs in total,
so "429 exactly `max_retries` times then a 200" cannot succeed.) -/
theorem c2_amended (url owner repo : String) (files : Files) (mr : Nat)
    (r : HttpResponse) (rest rest2 : List HttpResponse) (js js2 : List ℚ)
    (hmr : 1 ≤ mr)
    (hmiss : find_cached files owner repo = none)
    (hst : r.status = 200) (hok : allGood r.chunks = true)
    (hfresh : files.all
      (fun f => f.1 ≠ sanitize (owner ++ "-" ++ repo ++ "-opengraph" ++ chooseExt r.contentType url)) = true) :
    download_with_retry url owner repo files (List.replicate (mr - 1) resp429 ++ r :: rest) js mr =
      { result := .ok (sanitize (owner ++ "-" ++ repo ++ "-opengraph" ++ chooseExt r.contentType url)),
        files := files ++
          [(sanitize (owner ++ "-" ++ repo ++ "-opengraph" ++ chooseExt r.contentType url),
            chunksBytes r.chunks)],
        requests := mr,
        sleeps := (List.range (mr - 1)).map (fun i => (2 : ℚ) ^ i + js.getD i 0) } ∧
    (download_with_retry url owner repo files (List.replicate mr resp429 ++ rest2) js2 mr).result
        = .error (.rateLimited rateLimitedMsg) := by
  constructor
  · obtain ⟨k, rfl⟩ : ∃ k, mr = k + 1 := ⟨mr - 1, by omega⟩
    simp only [Nat.add_sub_cancel]
    simp only [download_with_retry, hmiss]
    rw [downloadLoop_429s url owner repo files k 1 (r :: rest) js 1]
    rw [downloadLoop_success url owner repo files r rest (js.drop k) (1 * 2 ^ k) 0
      (by rw [hst]; decide) (by rw [hst]; decide) hok (any_eq_false_of_all_ne hfresh)]
    simp [one_mul]
    omega
  · rw [download_allRateLimited url owner repo files mr rest2 js2 hmiss]

/-- Witness for C2 (amended) at `max_retries = 3`: two 429s then a 200. -/
theorem c2_amended_witness :
    download_with_retry "u" "o" "r" [] (List.replicate 2 resp429 ++ [respPng]) [0, 0] 3 =
      { result := .ok "o-r-opengraph.png",
        files := [("o-r-opengraph.png", [137, 80, 78, 71])],
        requests := 3, sleeps := [1, 2] } := by
  have h := (c2_amended "u" "o" "r" [] 3 respPng [] [] [0, 0] [] (by omega) rfl rfl rfl rfl).1
  refine h.trans ?_
  have hsleeps : List.map (fun i => (2 : ℚ) ^ i + [(0 : ℚ), 0].getD i 0) (List.range (3 - 1)) = [1, 2] := by
    norm_num [List.range_succ]
  rw [hsleeps]
  rfl

/-- Claim C3: a 429 is not fatal: after the j-th 429 the fetcher sleeps
`backoff + jitter_j`, where the backoff starts at 1.0 and doubles after
each 429; attempts are capped at `max_retries` (5 by default in the
source), and exhausting the cap fails with `RateLimited` whose message
suggests opening the image URL directly in the browser.  With jitters in
[0, 0.35], each sleep lies in `[2^j, 2^j + 0.35]`. -/
theorem c3_backoff_and_cap (url owner repo : String) (files : Files) (mr : Nat)
    (rest : List HttpResponse) (js : List ℚ)
    (hmiss : find_cached files owner repo = none) :
    (download_with_retry url owner repo files (List.replicate mr resp429 ++ rest) js mr).result
        = .error (.rateLimited rateLimitedMsg) ∧
    (download_with_retry url owner repo files (List.replicate mr resp429 ++ rest) js mr).requests
        = mr ∧
    (download_with_retry url owner repo files (List.replicate mr resp429 ++ rest) js mr).sleeps
        = (List.range mr).map (fun j => (2 : ℚ) ^ j + js.getD j 0) ∧
    ((∀ x ∈ js, 0 ≤ x ∧ x ≤ 7 / 20) → ∀ j, j < mr →
      (2 : ℚ) ^ j ≤ 2 ^ j + js.getD j 0 ∧ (2 : ℚ) ^ j + js.getD j 0 ≤ 2 ^ j + 7 / 20) ∧
    List.IsInfix "in your browser".data rateLimitedMsg.data ∧
    List.IsInfix "'Open image URL'".data rateLimitedMsg.data := by
  rw [download_allRateLimited url owner repo files mr rest js hmiss]
  refine ⟨rfl, rfl, rfl, ?_,
    ⟨"GitHub rate-limited the image CDN (429). Try again shortly, or use 'Open image URL' and save it directly ".data,
      ".".data, by decide⟩,
    ⟨"GitHub rate-limited the image CDN (429). Try again shortly, or use ".data,
      " and save it directly in your browser.".data, by decide⟩⟩
  intro hj j _
  have := getD_bounds hj j
  constructor <;> linarith [this.1, this.2]

/-- Witness for C3 at `max_retries = 2` with jitters 0 and 0.35. -/
theorem c3_backoff_and_cap_witness :
    (download_with_retry "u" "o" "r" [] (List.replicate 2 resp429 ++ []) [0, 7 / 20] 2).result
        = .error (.rateLimited rateLimitedMsg) ∧
    (download_with_retry "u" "o" "r" [] (List.replicate 2 resp429 ++ []) [0, 7 / 20] 2).requests = 2 ∧
    (download_with_retry "u" "o" "r" [] (List.replicate 2 resp429 ++ []) [0, 7 / 20] 2).sleeps
        = [1, 2 + 7 / 20] := by
  have h := c3_backoff_and_cap "u" "o" "r" [] 2 [] [0, 7 / 20] rfl
  refine ⟨h.1, h.2.1, ?_⟩
  rw [h.2.2.1]
  norm_num [List.range_succ]

set_option maxRecDepth 8192 in
/-- Claim C8 (counterexample): a 300-status response is a non-success,
non-429 HTTP status, yet the call does not fail with `DownloadFailed`:
`raise_for_status` only raises on 4xx/5xx, so the (empty) body is written
and the call succeeds. -/
theorem c8_counterexample :
    (download_with_retry "u" "o" "r" []
        [{ status := 300, contentType := none, chunks := [] }] [] 5).result
      = .ok "o-r-opengraph.jpg" ∧
    (download_with_retry "u" "o" "r" []
        [{ status := 300, contentType := none, chunks := [] }] [] 5).files
      = [("o-r-opengraph.jpg", [])] := ⟨rfl, rfl⟩

/-- Claim C8 (amended): for every attempt whose GET returns a status in
400..599 other than 429, the call fails immediately with `DownloadFailed`
(`raise_for_status`), issuing exactly one GET, retrying nothing and
writing nothing; statuses below 400 are treated as success instead. -/
theorem c8_amended (url owner repo : String) (files : Files) (r : HttpResponse)
    (rest : List HttpResponse) (js : List ℚ) (mr : Nat)
    (hmiss : find_cached files owner repo = none) (hmr : 1 ≤ mr)
    (h429 : r.status ≠ 429) (h4 : 400 ≤ r.status) (h6 : r.status < 600) :
    download_with_retry url owner repo files (r :: rest) js mr =
      { result := .error (.httpStatus r.status), files := files,
        requests := 1, sleeps := [] } := by
  obtain ⟨k, rfl⟩ : ∃ k, mr = k + 1 := ⟨mr - 1, by omega⟩
  simp only [download_with_retry, hmiss]
  exact downloadLoop_httpError url owner repo files r rest js 1 k h429 h4 h6

/-- Witness for C8 (amended): a 404 fails with one GET and no retry. -/
theorem c8_amended_witness :
    download_with_retry "u" "o" "r" [] [{ status := 404, contentType := none, chunks := [] }] [] 5 =
      { result := .error (.httpStatus 404), files := [], requests := 1, sleeps := [] } :=
  c8_amended "u" "o" "r" [] { status := 404, contentType := none, chunks := [] } [] [] 5
    rfl (by omega) (by decide) (by decide) (by decide)

/-! ## Claims C9, C1, C7: writing and the cache round trip -/

/-- Claim C9: a successful download of an N-byte body writes one cache
file containing exactly those N bytes, under the sanitized deterministic
name; the extension comes from the content-type via the MIME mapping
(`image/png` gives `.png`); with no usable content-type it is the URL's
own suffix when that is a known image extension, and `.jpg` otherwise. -/
theorem c9_roundtrip (url owner repo : String) (files : Files) (r : HttpResponse)
    (rest : List HttpResponse) (js : List ℚ) (mr : Nat)
    (hmiss : find_cached files owner repo = none) (hmr : 1 ≤ mr)
    (hst : r.status = 200) (hok : allGood r.chunks = true)
    (hfresh : files.all
      (fun f => f.1 ≠ sanitize (owner ++ "-" ++ repo ++ "-opengraph" ++ chooseExt r.contentType url)) = true) :
    download_with_retry url owner repo files (r :: rest) js mr =
      { result := .ok (sanitize (owner ++ "-" ++ repo ++ "-opengraph" ++ chooseExt r.contentType url)),
        files := files ++
          [(sanitize (owner ++ "-" ++ repo ++ "-opengraph" ++ chooseExt r.contentType url),
            chunksBytes r.chunks)],
        requests := 1, sleeps := [] } ∧
    (∀ e, ctypeOf r.contentType ≠ "" → guess_extension (ctypeOf r.contentType) = some e →
      chooseExt r.contentType url = e) ∧
    ((ctypeOf r.contentType = "" ∨ guess_extension (ctypeOf r.contentType) = none) →
      knownImageSuffix (url.data.map Char.toLower) = true →
      chooseExt r.contentType url = String.mk (path_suffix url.data)) ∧
    ((ctypeOf r.contentType = "" ∨ guess_extension (ctypeOf r.contentType) = none) →
      knownImageSuffix (url.data.map Char.toLower) = false →
      chooseExt r.contentType url = ".jpg") ∧
    guess_extension "image/png" = some ".png" := by
  refine ⟨?_, ?_, ?_, ?_, by rfl⟩
  · obtain ⟨k, rfl⟩ : ∃ k, mr = k + 1 := ⟨mr - 1, by omega⟩
    simp only [download_with_retry, hmiss]
    exact downloadLoop_success url owner repo files r rest js 1 k
      (by rw [hst]; decide) (by rw [hst]; decide) hok (any_eq_false_of_all_ne hfresh)
  · intro e hne hg
    simp [chooseExt, hne, hg]
  · intro hcase hk
    rcases hcase with h0 | h0
    · simp [chooseExt, h0, hk]
    · by_cases hc : ctypeOf r.contentType = ""
      · simp [chooseExt, hc, hk]
      · simp [chooseExt, hc, h0, hk]
  · intro hcase hk
    rcases hcase with h0 | h0
    · simp [chooseExt, h0, hk]
    · by_cases hc : ctypeOf r.contentType = ""
      · simp [chooseExt, hc, hk]
      · simp [chooseExt, hc, h0, hk]

/-- Witness for C9: a four-byte PNG body lands as exactly those four bytes
in `octocat-Hello-World-opengraph.png`. -/
theorem c9_roundtrip_witness :
    download_with_retry "https://x/img" "octocat" "Hello-World" [] [respPng] [] 5 =
      { result := .ok "octocat-Hello-World-opengraph.png",
        files := [("octocat-Hello-World-opengraph.png", [137, 80, 78, 71])],
        requests := 1, sleeps := [] } := by
  have h := (c9_roundtrip "https://x/img" "octocat" "Hello-World" [] respPng [] [] 5
    rfl (by omega) rfl rfl rfl).1
  exact h.trans (by rfl)

/-- The written (sanitized) name still matches the identity's glob pattern
whenever the identity uses only `[A-Za-z0-9_.-]` characters and the chosen
extension starts with a dot. -/
theorem name_matches_pattern (owner repo ext : String)
    (hsafe : (owner.data ++ repo.data).all isSafeChar = true)
    (hdot : ∃ t, ext.data = '.' :: t) :
    globMatch (cachePattern owner repo).data
      (sanitize (owner ++ "-" ++ repo ++ "-opengraph" ++ ext)).data = true := by
  obtain ⟨t, ht⟩ := hdot
  have hsafeO : ∀ c ∈ owner.data, isSafeChar c = true := fun c hc =>
    List.all_eq_true.mp hsafe c (List.mem_append.mpr (Or.inl hc))
  have hsafeR : ∀ c ∈ repo.data, isSafeChar c = true := fun c hc =>
    List.all_eq_true.mp hsafe c (List.mem_append.mpr (Or.inr hc))
  have hdotchar : sanitizeL ('.' :: t) = '.' :: sanitizeL t := by
    simp only [sanitizeL, List.map_cons]
    rw [if_pos (by decide)]
  have hpat : (cachePattern owner repo).data =
      ((owner.data ++ "-".data ++ repo.data ++ "-opengraph.".data) ++ ['*']) := by
    simp [cachePattern, data_append, List.append_assoc]
  have hname : (sanitize (owner ++ "-" ++ repo ++ "-opengraph" ++ ext)).data =
      ((owner.data ++ "-".data ++ repo.data ++ "-opengraph.".data) ++ sanitizeL t) := by
    show sanitizeL (owner ++ "-" ++ repo ++ "-opengraph" ++ ext).data = _
    simp only [data_append, sanitizeL_append]
    rw [sanitizeL_safe hsafeO, sanitizeL_safe hsafeR,
      show sanitizeL "-".data = "-".data from by decide,
      show sanitizeL "-opengraph".data = "-opengraph".data from by decide, ht, hdotchar]
    simp [List.append_assoc]
  rw [hpat, hname]
  have hL : ∀ c ∈ owner.data ++ "-".data ++ repo.data ++ "-opengraph.".data,
      c ≠ '*' ∧ c ≠ '[' ∧ c ≠ '?' := by
    intro c hc
    rcases List.mem_append.mp hc with hc1 | hc4
    · rcases List.mem_append.mp hc1 with hc2 | hc3
      · rcases List.mem_append.mp hc2 with hc5 | hc6
        · exact isSafeChar_not_meta (hsafeO c hc5)
        · exact isSafeChar_not_meta
            ((show ∀ x ∈ "-".data, isSafeChar x = true from by decide) c hc6)
      · exact isSafeChar_not_meta (hsafeR c hc3)
    · exact isSafeChar_not_meta
        ((show ∀ x ∈ "-opengraph.".data, isSafeChar x = true from by decide) c hc4)
  rw [globMatch_lit_front hL]
  exact globMatch_star_any _

/-- A cache miss plus a name matching the glob pattern: the written file
is fresh, and a later lookup finds exactly it. -/
theorem fresh_of_miss {files : Files} {owner repo name : String}
    (hmiss : find_cached files owner repo = none)
    (hmatch : globMatch (cachePattern owner repo).data name.data = true) :
    files.any (fun f => f.1 = name) = false := by
  rw [List.any_eq_false]
  intro x hx
  simp only [decide_eq_true_eq]
  intro heq
  have h1 : files.find? (fun f => globMatch (cachePattern owner repo).data f.1.data) = none :=
    Option.map_eq_none'.mp hmiss
  exact List.find?_eq_none.mp h1 x hx (by rw [heq]; exact hmatch)

theorem find_cached_append_match (files : Files) {owner repo name : String}
    (content : List Nat)
    (hmiss : find_cached files owner repo = none)
    (hmatch : globMatch (cachePattern owner repo).data name.data = true) :
    find_cached (files ++ [(name, content)]) owner repo = some name := by
  have h1 : files.find? (fun f => globMatch (cachePattern owner repo).data f.1.data) = none :=
    Option.map_eq_none'.mp hmiss
  unfold find_cached
  rw [List.find?_append, h1, Option.none_or,
    @List.find?_cons_of_pos _ (fun f => globMatch (cachePattern owner repo).data f.1.data)
      (name, content) [] hmatch]
  rfl

/-- Claim C1 (amended): when owner and name consist only of characters in
`[A-Za-z0-9_.-]` (so sanitization keeps the identity prefix the cache glob
looks for) and the chosen extension is non-empty, a first successful fetch
writes the cache file, and a second fetch for the same identity returns
exactly that file's path with zero outbound requests, leaving the
directory unchanged.  For other identities the written name is sanitized
while the glob is built from the raw identity, so the second fetch can
miss the cache and download again (see the counterexample). -/
theorem c1_amended (url url2 owner repo : String) (files : Files) (r : HttpResponse)
    (rest rs2 : List HttpResponse) (js js2 : List ℚ) (mr mr2 : Nat)
    (hsafe : (owner.data ++ repo.data).all isSafeChar = true)
    (hmiss : find_cached files owner repo = none)
    (hmr : 1 ≤ mr)
    (hst : r.status = 200) (hok : allGood r.chunks = true)
    (hext : chooseExt r.contentType url ≠ "") :
    download_with_retry url owner repo files (r :: rest) js mr =
      { result := .ok (sanitize (owner ++ "-" ++ repo ++ "-opengraph" ++ chooseExt r.contentType url)),
        files := files ++
          [(sanitize (owner ++ "-" ++ repo ++ "-opengraph" ++ chooseExt r.contentType url),
            chunksBytes r.chunks)],
        requests := 1, sleeps := [] } ∧
    download_with_retry url2 owner repo
        (files ++
          [(sanitize (owner ++ "-" ++ repo ++ "-opengraph" ++ chooseExt r.contentType url),
            chunksBytes r.chunks)]) rs2 js2 mr2 =
      { result := .ok (sanitize (owner ++ "-" ++ repo ++ "-opengraph" ++ chooseExt r.contentType url)),
        files := files ++
          [(sanitize (owner ++ "-" ++ repo ++ "-opengraph" ++ chooseExt r.contentType url),
            chunksBytes r.chunks)],
        requests := 0, sleeps := [] } := by
  have hmatch : globMatch (cachePattern owner repo).data
      (sanitize (owner ++ "-" ++ repo ++ "-opengraph" ++ chooseExt r.contentType url)).data = true :=
    name_matches_pattern owner repo _ hsafe (chooseExt_dot hext)
  constructor
  · obtain ⟨k, rfl⟩ : ∃ k, mr = k + 1 := ⟨mr - 1, by omega⟩
    simp only [download_with_retry, hmiss]
    exact downloadLoop_success url owner repo files r rest js 1 k
      (by rw [hst]; decide) (by rw [hst]; decide) hok (fresh_of_miss hmiss hmatch)
  · simp only [download_with_retry, find_cached_append_match files _ hmiss hmatch]

/-- Witness for C1 (amended): first fetch writes the file, second returns
it with zero requests. -/
theorem c1_amended_witness :
    download_with_retry "u" "octo" "repo1" [] [respPng] [] 5 =
      { result := .ok "octo-repo1-opengraph.png",
        files := [("octo-repo1-opengraph.png", [137, 80, 78, 71])],
        requests := 1, sleeps := [] } ∧
    download_with_retry "u2" "octo" "repo1" [("octo-repo1-opengraph.png", [137, 80, 78, 71])] [] [] 5 =
      { result := .ok "octo-repo1-opengraph.png",
        files := [("octo-repo1-opengraph.png", [137, 80, 78, 71])],
        requests := 0, sleeps := [] } := by
  have h := c1_amended "u" "u2" "octo" "repo1" [] respPng [] [] [] [] 5 5
    (by decide) rfl (by omega) rfl rfl (by decide)
  exact ⟨h.1.trans (by rfl), h.2.trans (by rfl)⟩

set_option maxRecDepth 8192 in
/-- Claim C1 (counterexample): for the identity `("a%20b", "r")` — e.g.
from parsing a URL with a percent-encoded owner — the first fetch succeeds
and writes `a_20b-r-opengraph.png` (the written filename is sanitized),
but the second fetch globs for the raw `a%20b-r-opengraph.*`, misses, and
issues another GET instead of returning the cached file without any
request. -/
theorem c1_counterexample :
    (download_with_retry "u" "a%20b" "r" [] [respPng] [] 5).result = .ok "a_20b-r-opengraph.png" ∧
    (download_with_retry "u" "a%20b" "r" [] [respPng] [] 5).files
      = [("a_20b-r-opengraph.png", [137, 80, 78, 71])] ∧
    (download_with_retry "u" "a%20b" "r"
      [("a_20b-r-opengraph.png", [137, 80, 78, 71])] [respPng] [] 5).requests = 1 := by
  refine ⟨rfl, rfl, ?_⟩
  have hng : globMatch "a%20b-r-opengraph.*".data "a_20b-r-opengraph.png".data = false := by
    show globMatch ('a' :: "%20b-r-opengraph.*".data) ('a' :: "_20b-r-opengraph.png".data) = false
    rw [globMatch_lit_cons (by decide) (by decide) (by decide)]
    exact globMatch_lit_ne (by decide) (by decide) (by decide) (by decide) _ _
  have hfc : find_cached [("a_20b-r-opengraph.png", [137, 80, 78, 71])] "a%20b" "r" = none := by
    unfold find_cached
    rw [show cachePattern "a%20b" "r" = "a%20b-r-opengraph.*" from rfl,
      @List.find?_cons_of_neg _
        (fun f => globMatch "a%20b-r-opengraph.*".data f.1.data)
        ("a_20b-r-opengraph.png", [137, 80, 78, 71]) []
        (by simp [hng])]
    rfl
  simp only [download_with_retry, hfc]
  rfl

set_option maxRecDepth 8192 in
/-- Claim C7 (exhibit of the bug): an exception after the first 3-byte
chunk of the stream leaves the partial file `o-r-opengraph.png` on disk,
and a subsequent cache check for the same identity returns it as a valid
hit — the source never deletes or renames on a failed write. -/
theorem c7_partial_write_exhibit :
    (download_with_retry "u" "o" "r" []
        [{ status := 200, contentType := some "image/png",
           chunks := [Chunk.bytes [1, 2, 3], Chunk.err] }] [] 5).result
      = .error .streamError ∧
    (download_with_retry "u" "o" "r" []
        [{ status := 200, contentType := some "image/png",
           chunks := [Chunk.bytes [1, 2, 3], Chunk.err] }] [] 5).files
      = [("o-r-opengraph.png", [1, 2, 3])] ∧
    find_cached [("o-r-opengraph.png", [1, 2, 3])] "o" "r" = some "o-r-opengraph.png" := by
  refine ⟨rfl, rfl, ?_⟩
  have hm : globMatch "o-r-opengraph.*".data "o-r-opengraph.png".data = true := by
    calc globMatch "o-r-opengraph.*".data "o-r-opengraph.png".data
        = globMatch ("o-r-opengraph.".data ++ ['*']) ("o-r-opengraph.".data ++ "png".data) := rfl
      _ = globMatch ['*'] "png".data := globMatch_lit_front (by decide) _ _
      _ = true := globMatch_star_any _
  unfold find_cached
  rw [show cachePattern "o" "r" = "o-r-opengraph.*" from rfl,
    @List.find?_cons_of_pos _
      (fun f => globMatch "o-r-opengraph.*".data f.1.data)
      ("o-r-opengraph.png", [1, 2, 3]) [] hm]
  rfl

end GhOg
